import Mathlib

/-!
Verification of the `FastString` core (src/core/fast_string.rs), a tagged
string type with three variants: `Static` (borrowed static bytes),
`StaticAscii` (borrowed static bytes, all < 0x80) and `Arc` (a
reference-counted shared buffer).  Strings are modelled as lists of byte
values (`Nat`, each a `u8`), and the reference-counted buffers as a heap of
buffers indexed by allocation order, so that sharing and freshness of
allocations can be stated.  Operations that in Rust panic are modelled as
`Option`-valued, `none` meaning a panic.
-/

namespace FastStr

/-- Byte strings: lists of `u8` values, each element a `Nat` below 256. -/
abbrev Bytes := List Nat

/-- Heap of reference-counted buffers.  An `Arc<str>` is modelled as an index
into this list; allocating appends a buffer and existing indices keep their
contents. -/
structure Heap where
  bufs : List Bytes
deriving DecidableEq

/-- Content of the buffer at address `a` (meaningful when `a < h.bufs.length`;
a dangling address cannot occur in the Rust program). -/
def Heap.lookup (h : Heap) (a : Nat) : Bytes := h.bufs.getD a []

/-- Allocate a fresh buffer holding `s`; returns the new heap and the fresh
address. -/
def Heap.alloc (h : Heap) (s : Bytes) : Heap × Nat :=
  (⟨h.bufs ++ [s]⟩, h.bufs.length)

/-- `enum FastString` from src/core/fast_string.rs: `Static(&'static str)`,
`StaticAscii(&'static str)` and `Arc(Arc<str>)` (the `Arc` case holds a heap
address). -/
inductive FastString where
  | Static (s : Bytes)
  | StaticAscii (s : Bytes)
  | Arc (addr : Nat)
deriving DecidableEq

/-- `Cow<'static, str>`: either a genuinely owned buffer or a static borrow. -/
inductive Cow where
  | Owned (s : Bytes)
  | Borrowed (s : Bytes)
deriving DecidableEq

/-- `impl IsPotentiallyOwned for String`: `self.into()` on an owned `String`
yields `Cow::Owned`. -/
def string_maybe_into_owned_vec (s : Bytes) : Cow := Cow.Owned s

/-- `FastString::is_ascii`: byte-by-byte scan, short-circuiting on the first
byte whose high bit is set (`u8::is_ascii` is `b <= 0x7F`). -/
def is_ascii : Bytes → Bool
  | [] => true
  | b :: rest => if b < 0x80 then is_ascii rest else false

/-- `FastString::from_static`: run the ASCII scan, tag accordingly. -/
def from_static (s : Bytes) : FastString :=
  if is_ascii s then FastString.StaticAscii s else FastString.Static s

/-- `FastString::ensure_static_ascii`: `StaticAscii` if the scan passes,
otherwise a panic (modelled as `none`). -/
def ensure_static_ascii (s : Bytes) : Option FastString :=
  if is_ascii s then some (FastString.StaticAscii s) else none

/-- `FastString::from_ownable` after `maybe_into_owned_vec`: an owned buffer
becomes a fresh `Arc`; a borrowed span goes through `from_static`. -/
def from_ownable (h : Heap) (c : Cow) : Heap × FastString :=
  match c with
  | Cow.Owned s =>
      let p := h.alloc s
      (p.1, FastString.Arc p.2)
  | Cow.Borrowed s => (h, from_static s)

/-- `FastString::from_arc`: wrap an existing shared buffer, no scan, no copy. -/
def from_arc (a : Nat) : FastString := FastString.Arc a

/-- `impl From<String> for FastString`: `FastString::Arc(value.into_boxed_str().into())`,
a fresh shared buffer, no ASCII scan. -/
def fromString (h : Heap) (s : Bytes) : Heap × FastString :=
  let p := h.alloc s
  (p.1, FastString.Arc p.2)

/-- A `Url` is an owned string value. -/
structure Url where
  str : Bytes
deriving DecidableEq

/-- `impl From<Url> for FastString`: convert to `String`, then `From<String>`. -/
def fromUrl (h : Heap) (u : Url) : Heap × FastString := fromString h u.str

/-- `FastString::try_static_ascii`: the borrowed bytes only for `StaticAscii`. -/
def try_static_ascii (fs : FastString) : Option Bytes :=
  match fs with
  | FastString.StaticAscii s => some s
  | _ => none

/-- `FastString::as_bytes`: the logical byte content of any variant. -/
def as_bytes (h : Heap) (fs : FastString) : Bytes :=
  match fs with
  | FastString.Arc a => h.lookup a
  | FastString.Static s => s
  | FastString.StaticAscii s => s

/-- `FastString::as_str`: same logical content (the model is byte-level). -/
def as_str (h : Heap) (fs : FastString) : Bytes :=
  match fs with
  | FastString.Arc a => h.lookup a
  | FastString.Static s => s
  | FastString.StaticAscii s => s

/-- Rust `str::is_char_boundary i`: true at 0, at the length, and at any
in-bounds index whose byte is not a UTF-8 continuation byte. -/
def is_char_boundary (s : Bytes) (i : Nat) : Bool :=
  if i = 0 then true
  else if h : i < s.length then
    let b := s.get ⟨i, h⟩
    b < 0x80 || 0xC0 ≤ b
  else i == s.length

/-- Rust string slicing `&s[..i]`: the byte prefix when `i` is a char
boundary, a panic (`none`) otherwise. -/
def sliceTo (s : Bytes) (i : Nat) : Option Bytes :=
  if is_char_boundary s i then some (s.take i) else none

/-- `FastString::truncate`: re-slice the borrowed span for the static
variants; for `Arc`, slice, copy to an owned buffer and rewrap via
`From<String>` (a fresh allocation).  A slicing panic is `none`. -/
def truncate (h : Heap) (fs : FastString) (i : Nat) : Option (Heap × FastString) :=
  match fs with
  | FastString.Static b =>
      (sliceTo b i).map (fun p => (h, FastString.Static p))
  | FastString.StaticAscii b =>
      (sliceTo b i).map (fun p => (h, FastString.StaticAscii p))
  | FastString.Arc a =>
      (sliceTo (h.lookup a) i).map (fun p => fromString h p)

/-- The two v8 string constructors the conversion can invoke, applied to the
bytes they receive. -/
inductive V8String where
  | externalOnebyteStatic (bytes : Bytes)
  | newFromUtf8 (bytes : Bytes)
deriving DecidableEq

/-- `FastString::v8`: the external static one-byte constructor when
`try_static_ascii` succeeds, the general UTF-8 constructor otherwise. -/
def v8 (h : Heap) (fs : FastString) : V8String :=
  match try_static_ascii fs with
  | some s => V8String.externalOnebyteStatic s
  | none => V8String.newFromUtf8 (as_bytes h fs)

/-- `impl PartialEq for FastString`: byte-content comparison. -/
def beq (h : Heap) (x y : FastString) : Bool := as_bytes h x == as_bytes h y

/-- `impl Hash for FastString`: the data fed to the hasher is `as_str`'s
content, so two values hash identically iff this function agrees on them. -/
def hash_input (h : Heap) (fs : FastString) : Bytes := as_str h fs

/-- `impl Default for FastString`: `Self::StaticAscii("")`. -/
def default_value : FastString := FastString.StaticAscii []

/-- Looking up the freshly allocated address returns the new buffer. -/
theorem Heap.lookup_alloc_self (h : Heap) (s : Bytes) :
    (Heap.mk (h.bufs ++ [s])).lookup h.bufs.length = s := by
  show (h.bufs ++ [s]).getD h.bufs.length [] = s
  rw [List.getD_append_right _ _ _ _ (le_refl _)]
  simp

/-- Allocation leaves every previously valid address unchanged. -/
theorem Heap.lookup_alloc_prev (h : Heap) (s : Bytes) (b : Nat)
    (hb : b < h.bufs.length) :
    (Heap.mk (h.bufs ++ [s])).lookup b = h.lookup b := by
  show (h.bufs ++ [s]).getD b [] = h.bufs.getD b []
  exact List.getD_append _ _ _ _ hb

/-- `as_str` and `as_bytes` expose the same content in this byte-level model. -/
theorem as_str_eq_as_bytes (h : Heap) (fs : FastString) :
    as_str h fs = as_bytes h fs := by
  cases fs <;> rfl

/-- The ASCII scan accepts exactly the spans whose bytes are all < 0x80. -/
theorem is_ascii_iff_lt (s : Bytes) : is_ascii s = true ↔ ∀ b ∈ s, b < 0x80 := by
  induction s with
  | nil => simp [is_ascii]
  | cons b rest ih =>
    by_cases hb : b < 0x80
    · simp [is_ascii, hb, ih]
    · simp only [is_ascii, hb, if_false]
      constructor
      · intro h
        exact absurd h (by simp)
      · intro h
        exact absurd (h b (List.mem_cons_self b rest)) hb

/-- C1: `is_ascii` returns true iff every byte of the span is below 0x80; it
returns true on the empty span and on `[0x7F]`, and false on any span
containing a byte ≥ 0x80. -/
theorem c1_is_ascii_classification :
    (∀ s : Bytes, is_ascii s = true ↔ ∀ b ∈ s, b < 0x80) ∧
    is_ascii [] = true ∧
    is_ascii [0x7F] = true ∧
    (∀ (s : Bytes) (b : Nat), b ∈ s → 0x80 ≤ b → is_ascii s = false) := by
  refine ⟨is_ascii_iff_lt, rfl, rfl, ?_⟩
  intro s b hmem hge
  cases hsc : is_ascii s with
  | false => rfl
  | true =>
    have := (is_ascii_iff_lt s).mp hsc b hmem
    omega

/-- C1 witness: the classification theorem applied at concrete spans. -/
theorem c1_witness : is_ascii [0x41, 0x80] = false :=
  c1_is_ascii_classification.2.2.2 [0x41, 0x80] 0x80
    (by decide) (by decide)

/-- C2: `from_static` is total; it yields `StaticAscii` exactly when the scan
passes and `Static` otherwise, so `try_static_ascii` on the result returns
the input bytes for pure-ASCII input and nothing when some byte is ≥ 0x80. -/
theorem c2_from_static_round_trip (s : Bytes) :
    (is_ascii s = true →
      from_static s = FastString.StaticAscii s ∧
      try_static_ascii (from_static s) = some s) ∧
    (is_ascii s = false →
      from_static s = FastString.Static s ∧
      try_static_ascii (from_static s) = none) ∧
    ((∃ b ∈ s, 0x80 ≤ b) → try_static_ascii (from_static s) = none) := by
  refine ⟨?_, ?_, ?_⟩
  · intro h
    simp [from_static, h, try_static_ascii]
  · intro h
    simp [from_static, h, try_static_ascii]
  · rintro ⟨b, hmem, hge⟩
    have hsc : is_ascii s = false := by
      cases hsc : is_ascii s with
      | false => rfl
      | true =>
        have := (is_ascii_iff_lt s).mp hsc b hmem
        omega
    simp [from_static, hsc, try_static_ascii]

/-- C2 witness: the round trip at a concrete ASCII span and a concrete
non-ASCII span. -/
theorem c2_witness :
    try_static_ascii (from_static [0x61, 0x62, 0x63]) = some [0x61, 0x62, 0x63] ∧
    try_static_ascii (from_static [0x68, 0xC3, 0xA9]) = none :=
  ⟨((c2_from_static_round_trip [0x61, 0x62, 0x63]).1 (by decide)).2,
   (c2_from_static_round_trip [0x68, 0xC3, 0xA9]).2.2
     ⟨0xC3, by decide, by decide⟩⟩

/-- C6: `ensure_static_ascii` returns `StaticAscii` when the scan passes and
panics (returns no value) when the input contains a non-ASCII byte. -/
theorem c6_ensure_static_ascii (s : Bytes) :
    (is_ascii s = true →
      ensure_static_ascii s = some (FastString.StaticAscii s)) ∧
    (is_ascii s = false → ensure_static_ascii s = none) := by
  constructor
  · intro h
    simp [ensure_static_ascii, h]
  · intro h
    simp [ensure_static_ascii, h]

/-- C6 witness: UTF-8 bytes of "héllo" are rejected fatally, "hello" is
accepted as `StaticAscii`. -/
theorem c6_witness :
    ensure_static_ascii [0x68, 0xC3, 0xA9, 0x6C, 0x6C, 0x6F] = none ∧
    ensure_static_ascii [0x68, 0x65, 0x6C, 0x6C, 0x6F] =
      some (FastString.StaticAscii [0x68, 0x65, 0x6C, 0x6C, 0x6F]) :=
  ⟨(c6_ensure_static_ascii [0x68, 0xC3, 0xA9, 0x6C, 0x6C, 0x6F]).2 (by decide),
   (c6_ensure_static_ascii [0x68, 0x65, 0x6C, 0x6C, 0x6F]).1 (by decide)⟩

/-- C7: the v8 conversion selects its constructor by variant only: a
`StaticAscii` value goes to the external static one-byte constructor with its
borrowed bytes, while `Static` and `Arc` values — whatever their content,
ASCII or not — go to the general UTF-8 constructor; no ASCII re-scan occurs. -/
theorem c7_v8_variant_selects_path (h : Heap) (s : Bytes) (a : Nat) :
    v8 h (FastString.StaticAscii s) = V8String.externalOnebyteStatic s ∧
    v8 h (FastString.Static s) = V8String.newFromUtf8 s ∧
    v8 h (FastString.Arc a) = V8String.newFromUtf8 (h.lookup a) := by
  refine ⟨rfl, rfl, rfl⟩

/-- C8: the default value is the zero-length `StaticAscii`: its content is
empty in every heap and `try_static_ascii` succeeds with the empty span. -/
theorem c8_default_empty_static_ascii :
    default_value = FastString.StaticAscii [] ∧
    (∀ h : Heap, (as_bytes h default_value).length = 0) ∧
    try_static_ascii default_value = some [] := by
  refine ⟨rfl, fun h => rfl, rfl⟩

/-- C9: `From<String>` and `From<Url>` build a fresh `Arc` directly (no
scan), `from_ownable` sends an owned input to that path and a borrowed input
through `from_static`, and `try_static_ascii` on a value built from an owned
string returns nothing even when the bytes are all ASCII. -/
theorem c9_owned_paths_give_arc (h : Heap) (s : Bytes) (u : Url) :
    fromString h s = (⟨h.bufs ++ [s]⟩, FastString.Arc h.bufs.length) ∧
    fromUrl h u = fromString h u.str ∧
    from_ownable h (string_maybe_into_owned_vec s) = fromString h s ∧
    from_ownable h (Cow.Borrowed s) = (h, from_static s) ∧
    try_static_ascii (fromString h s).2 = none := by
  refine ⟨rfl, rfl, rfl, rfl, rfl⟩

/-- C3: at an in-bounds char-boundary index, `truncate` succeeds and the
logical content of the result is the first `i` bytes of the original content,
for all three variants; a `Static` value stays `Static` and a `StaticAscii`
value stays `StaticAscii`, re-sliced to the prefix with no variant change. -/
theorem c3_truncate_prefix_content (h : Heap) (fs : FastString) (i : Nat)
    (hb : is_char_boundary (as_bytes h fs) i = true) :
    Option.map (fun r => as_bytes r.1 r.2) (truncate h fs i) =
      some ((as_bytes h fs).take i) ∧
    (∀ s, fs = FastString.Static s →
      truncate h fs i = some (h, FastString.Static (s.take i))) ∧
    (∀ s, fs = FastString.StaticAscii s →
      truncate h fs i = some (h, FastString.StaticAscii (s.take i))) := by
  cases fs with
  | Static b =>
    simp only [as_bytes] at hb
    refine ⟨?_, ?_, ?_⟩
    · simp [truncate, sliceTo, hb, as_bytes]
    · intro s hs
      cases hs
      simp [truncate, sliceTo, hb]
    · intro s hs
      cases hs
  | StaticAscii b =>
    simp only [as_bytes] at hb
    refine ⟨?_, ?_, ?_⟩
    · simp [truncate, sliceTo, hb, as_bytes]
    · intro s hs
      cases hs
    · intro s hs
      cases hs
      simp [truncate, sliceTo, hb]
  | Arc a =>
    simp only [as_bytes] at hb
    refine ⟨?_, ?_, ?_⟩
    · simp only [truncate, sliceTo, hb, if_true, Option.map_some, Option.map_map]
      simp [fromString, Heap.alloc, as_bytes, Heap.lookup_alloc_self]
    · intro s hs
      cases hs
    · intro s hs
      cases hs

/-- C3 witness: truncating the static `"123456"` at 3 keeps the variant and
yields content `"123"`. -/
theorem c3_witness :
    Option.map (fun r => as_bytes r.1 r.2)
      (truncate ⟨[]⟩ (FastString.Static [0x31, 0x32, 0x33, 0x34, 0x35, 0x36]) 3) =
      some [0x31, 0x32, 0x33] ∧
    truncate ⟨[]⟩ (FastString.Static [0x31, 0x32, 0x33, 0x34, 0x35, 0x36]) 3 =
      some (⟨[]⟩, FastString.Static [0x31, 0x32, 0x33]) := by
  have hc := c3_truncate_prefix_content ⟨[]⟩
    (FastString.Static [0x31, 0x32, 0x33, 0x34, 0x35, 0x36]) 3 (by decide)
  exact ⟨hc.1, hc.2.1 _ rfl⟩

/-- C4: truncating an `Arc` value at a valid index allocates a fresh buffer
holding the prefix and rewraps it as `Arc` at a fresh address (distinct from
every existing address, in particular from the original), while every other
value referencing the original heap — including one still holding the
original buffer — keeps its full content unchanged. -/
theorem c4_truncate_arc_fresh (h : Heap) (a i : Nat)
    (ha : a < h.bufs.length)
    (hb : is_char_boundary (h.lookup a) i = true) :
    truncate h (FastString.Arc a) i =
      some (⟨h.bufs ++ [(h.lookup a).take i]⟩,
        FastString.Arc h.bufs.length) ∧
    (Heap.mk (h.bufs ++ [(h.lookup a).take i])).lookup h.bufs.length =
      (h.lookup a).take i ∧
    h.bufs.length ≠ a ∧
    (∀ g : FastString, (∀ b, g = FastString.Arc b → b < h.bufs.length) →
      as_bytes ⟨h.bufs ++ [(h.lookup a).take i]⟩ g = as_bytes h g) := by
  refine ⟨?_, Heap.lookup_alloc_self h _, by omega, ?_⟩
  · simp [truncate, sliceTo, hb, fromString, Heap.alloc]
  · intro g hg
    cases g with
    | Static s => rfl
    | StaticAscii s => rfl
    | Arc b =>
      have hblt := hg b rfl
      show (Heap.mk (h.bufs ++ [(h.lookup a).take i])).lookup b = h.lookup b
      exact Heap.lookup_alloc_prev h _ b hblt

/-- C4 witness: truncating the shared `"123456"` buffer at 3 allocates a
fresh buffer with `"123"`, and the value still pointing at the original
buffer keeps the full `"123456"` content. -/
theorem c4_witness :
    truncate ⟨[[0x31, 0x32, 0x33, 0x34, 0x35, 0x36]]⟩ (FastString.Arc 0) 3 =
      some (⟨[[0x31, 0x32, 0x33, 0x34, 0x35, 0x36], [0x31, 0x32, 0x33]]⟩,
        FastString.Arc 1) ∧
    as_bytes ⟨[[0x31, 0x32, 0x33, 0x34, 0x35, 0x36], [0x31, 0x32, 0x33]]⟩
        (FastString.Arc 0) =
      as_bytes ⟨[[0x31, 0x32, 0x33, 0x34, 0x35, 0x36]]⟩ (FastString.Arc 0) := by
  have hc := c4_truncate_arc_fresh ⟨[[0x31, 0x32, 0x33, 0x34, 0x35, 0x36]]⟩ 0 3
    (by decide) (by decide)
  exact ⟨hc.1, hc.2.2.2 (FastString.Arc 0) (fun b hbe => by cases hbe; decide)⟩

/-- C5: equality and hashing depend only on the byte content, never on the
variant: equal content gives `beq` true and identical hasher input, `beq`
true forces equal content, and the three `"abc"` values built via
`from_static`, `from_ownable` (owned) and `from_arc` are pairwise equal with
identical hasher input. -/
theorem c5_eq_hash_content_only :
    (∀ (h : Heap) (x y : FastString), as_bytes h x = as_bytes h y →
      beq h x y = true ∧ hash_input h x = hash_input h y) ∧
    (∀ (h : Heap) (x y : FastString), beq h x y = true →
      as_bytes h x = as_bytes h y) ∧
    (let h0 : Heap := ⟨[]⟩
     let p := from_ownable h0 (string_maybe_into_owned_vec [0x61, 0x62, 0x63])
     let q := Heap.alloc p.1 [0x61, 0x62, 0x63]
     beq q.1 (from_static [0x61, 0x62, 0x63]) p.2 = true ∧
     beq q.1 p.2 (from_arc q.2) = true ∧
     beq q.1 (from_static [0x61, 0x62, 0x63]) (from_arc q.2) = true ∧
     hash_input q.1 (from_static [0x61, 0x62, 0x63]) = hash_input q.1 p.2 ∧
     hash_input q.1 p.2 = hash_input q.1 (from_arc q.2)) := by
  refine ⟨?_, ?_, by decide⟩
  · intro h x y hxy
    refine ⟨by simp [beq, hxy], ?_⟩
    simp only [hash_input, as_str_eq_as_bytes, hxy]
  · intro h x y hxy
    simpa [beq] using hxy

/-- C5 witness: two variants with identical single-byte content compare
equal and feed the hasher identically. -/
theorem c5_witness :
    beq ⟨[]⟩ (FastString.Static [0x61]) (FastString.StaticAscii [0x61]) = true ∧
    hash_input ⟨[]⟩ (FastString.Static [0x61]) =
      hash_input ⟨[]⟩ (FastString.StaticAscii [0x61]) :=
  c5_eq_hash_content_only.1 ⟨[]⟩ (FastString.Static [0x61])
    (FastString.StaticAscii [0x61]) (by decide)

/-- C10: for every variant, `truncate` succeeds whenever the index is a valid
char boundary of the content (in particular at most the content length), and
on any violating index it panics (`none`) rather than clamping or repairing
the index. -/
theorem c10_truncate_totality (h : Heap) (fs : FastString) (i : Nat) :
    (is_char_boundary (as_bytes h fs) i = true →
      (truncate h fs i).isSome = true) ∧
    (is_char_boundary (as_bytes h fs) i = false → truncate h fs i = none) := by
  cases fs with
  | Static b =>
    simp only [as_bytes]
    exact ⟨fun hb => by simp [truncate, sliceTo, hb],
           fun hb => by simp [truncate, sliceTo, hb]⟩
  | StaticAscii b =>
    simp only [as_bytes]
    exact ⟨fun hb => by simp [truncate, sliceTo, hb],
           fun hb => by simp [truncate, sliceTo, hb]⟩
  | Arc a =>
    simp only [as_bytes]
    exact ⟨fun hb => by simp [truncate, sliceTo, hb],
           fun hb => by simp [truncate, sliceTo, hb]⟩

/-- C10 witness: a boundary index succeeds and an out-of-bounds index panics
on a concrete value. -/
theorem c10_witness :
    (truncate ⟨[]⟩ (FastString.StaticAscii [0x31, 0x32]) 1).isSome = true ∧
    truncate ⟨[]⟩ (FastString.StaticAscii [0x31, 0x32]) 5 = none :=
  ⟨(c10_truncate_totality ⟨[]⟩ (FastString.StaticAscii [0x31, 0x32]) 1).1
     (by decide),
   (c10_truncate_totality ⟨[]⟩ (FastString.StaticAscii [0x31, 0x32]) 5).2
     (by decide)⟩

end FastStr
